import Mathlib

/-!
Verification of the fisheye text scene (src/app/components/FisheyeTextScene.tsx).

The development shallowly embeds the pieces of the component the claims
talk about: the greedy word wrap `wrapText`, the offscreen compositor's
text placement (`drawnTuples`, `edgeAlpha`, `blockHeight`), the fragment
shader of the distortion pass (`fragment`, `vignetteFactor`), the frame
clock (`renderTick`), the resize handler (`resize`), scene construction
(`initScene`) and teardown (`cleanup`).  GLSL / JS float arithmetic is
modelled over ℚ (exact arithmetic); the GLSL `sqrt` is passed as an
explicit function parameter, so every theorem about the shader holds for
the actual square root in particular.
-/

namespace Fisheye

/-! ## Text Layout Engine: wrapText (source lines 217-232) -/

/-- Scan for the whitespace tokenisation: `cur` holds the characters of
the word being read, in reverse; a whitespace character flushes it. -/
def wordsOfAux : List Char → List Char → List String
  | [], cur => if cur = [] then [] else [String.mk cur.reverse]
  | c :: rest, cur =>
    if c.isWhitespace then
      if cur = [] then wordsOfAux rest []
      else String.mk cur.reverse :: wordsOfAux rest []
    else wordsOfAux rest (c :: cur)

/-- Whitespace tokenisation of the input text: the whitespace-delimited
word sequence, i.e. the maximal non-whitespace runs.  The source uses
`t.split(/\s+/)`, which returns exactly these runs, except that a text
with leading or trailing whitespace also yields an empty boundary token.
A leading empty token is absorbed unchanged by the loop's
`line ? … : words[i]` and `… && line` truthiness tests, and a trailing
one can only add a trailing space character to the final line, leaving
the word sequence of every line intact, so the word-level claims are
decided by this list. -/
def wordsOf (t : String) : List String := wordsOfAux t.data []

/-- One iteration of the wrap loop (source lines 221-229).  State is
`(lines, line)`; the JS truthiness test `line ? … : …` is nonemptiness of
the current line string, and `ctx.measureText(test).width > maxWidth`
becomes `maxWidth < measure test` for the abstract measurement
function. -/
def wrapStep (measure : String → ℚ) (maxWidth : ℚ)
    (st : List String × String) (w : String) : List String × String :=
  let test := if st.2 = "" then w else st.2 ++ " " ++ w
  if maxWidth < measure test ∧ st.2 ≠ "" then (st.1 ++ [st.2], w)
  else (st.1, test)

/-- Greedy word wrap over the word list (source lines 217-232): fold the
loop body over the words, then flush the final nonempty line. -/
def wrapText (measure : String → ℚ) (maxWidth : ℚ) (ws : List String) :
    List String :=
  let st := ws.foldl (wrapStep measure maxWidth) ([], "")
  if st.2 = "" then st.1 else st.1 ++ [st.2]

/-- Joining a list of lines with single spaces (the claim's notion of
space-joining). -/
def joinSp : List String → String
  | [] => ""
  | [x] => x
  | x :: y :: ys => x ++ " " ++ joinSp (y :: ys)

/-- Tail form of the space-join: every word preceded by one space. -/
def spTail : List String → String
  | [] => ""
  | w :: ws => " " ++ w ++ spTail ws

/-- The space-join of the wrap-loop state: flushed lines plus the pending
line when nonempty. -/
def joinSt (st : List String × String) : String :=
  if st.2 = "" then joinSp st.1 else joinSp (st.1 ++ [st.2])

/-- Space-joining as the wrap loop's accumulator sees it: append each
word, preceded by a space once the accumulator is nonempty. -/
def joinAcc (acc : String) (ws : List String) : String :=
  ws.foldl (fun a w => if a = "" then w else a ++ " " ++ w) acc

/-! ## Compositor: scroll placement (source lines 156-215, 234-238) -/

/-- Truncation toward zero, as JS number-to-integer truncation. -/
def jsTrunc (q : ℚ) : ℤ := if 0 ≤ q then ⌊q⌋ else ⌈q⌉

/-- The JS `%` operator on numbers: remainder with the dividend's sign,
`a % b = a - b * trunc(a / b)`. -/
def jsMod (a b : ℚ) : ℚ := a - b * jsTrunc (a / b)

/-- Edge fade opacity (source lines 234-238):
`max(0, min(min(1, y/fade), min(1, (h-y)/fade)))`. -/
def edgeAlpha (y h fade : ℚ) : ℚ :=
  max 0 (min (min 1 ((y - 0) / fade)) (min 1 ((h - y) / fade)))

/-- Block height of one full text cycle (source line 196):
`lines.length * lineHeight + h * 0.2`. -/
def blockHeight (n : ℕ) (lineHeight h : ℚ) : ℚ :=
  n * lineHeight + h * 0.2

/-- First-pass base line position (source lines 197-198):
`h - h * 0.10 - (scroll % blockHeight)`. -/
def baseY (h scroll bh : ℚ) : ℚ := h - h * 0.10 - jsMod scroll bh

/-- The drawn `(line, y, alpha)` tuples of one compositor pass over the
text (source lines 200-212): two stacked blocks (`pass = -1, 0`), each
line placed at `baseY + pass * blockHeight + i * lineHeight`, faded by
`edgeAlpha` with `fade = lineHeight * 2`, and skipped when the alpha is
`≤ 0`. -/
def drawnTuples (lines : List String) (lineHeight h scroll : ℚ) :
    List (String × ℚ × ℚ) :=
  let bh := blockHeight lines.length lineHeight h
  let bY := baseY h scroll bh
  ([-1, 0] : List ℤ).flatMap (fun pass =>
    (List.range lines.length).filterMap (fun (i : ℕ) =>
      let ly := bY + (pass : ℚ) * bh + (i : ℚ) * lineHeight
      let a := edgeAlpha ly h (lineHeight * 2)
      if a ≤ 0 then none else some (lines.getD i "", ly, a)))

/-- Shift every tuple's vertical position by `c`. -/
def shiftY (c : ℚ) (l : List (String × ℚ × ℚ)) : List (String × ℚ × ℚ) :=
  l.map (fun tup => (tup.1, tup.2.1 + c, tup.2.2))

/-- One frame tick (source lines 240-242 together with line 181): the
effective dt is `min(0.05, (now - start) / 1000)` seconds, the clock
start moves to `now`, and `drawOffscreen` advances the scroll by
`speed * dt`.  State is `(start, scroll)`. -/
def renderTick (speed : ℚ) (st : ℚ × ℚ) (now : ℚ) : ℚ × ℚ :=
  (now, st.2 + speed * min 0.05 ((now - st.1) / 1000))

/-- The successive scroll values over a sequence of frame timestamps. -/
def scrollTrace (speed : ℚ) : ℚ × ℚ → List ℚ → List ℚ
  | _, [] => []
  | st, now :: rest =>
    (renderTick speed st now).2 :: scrollTrace speed (renderTick speed st now) rest

/-! ## Distortion Renderer: fragment shader FS (source lines 45-73) -/

/-- A GLSL vec4 colour value. -/
structure Vec4 where
  r : ℚ
  g : ℚ
  b : ℚ
  a : ℚ
deriving DecidableEq

/-- GLSL `clamp(x, lo, hi) = min(max(x, lo), hi)`. -/
def glslClamp (x lo hi : ℚ) : ℚ := min (max x lo) hi

/-- GLSL `smoothstep(edge0, edge1, x)`:
`t = clamp((x - edge0) / (edge1 - edge0), 0, 1); t * t * (3 - 2 * t)`. -/
def smoothstep (edge0 edge1 x : ℚ) : ℚ :=
  let t := glslClamp ((x - edge0) / (edge1 - edge0)) 0 1
  t * t * (3 - 2 * t)

/-- GLSL `mix(x, y, a) = x * (1 - a) + y * a`. -/
def glslMix (x y a : ℚ) : ℚ := x * (1 - a) + y * a

/-- The vignette brightness multiplier applied to in-bounds samples
(source lines 68-69): `mix(0.85, 1.0, smoothstep(0.9, 0.2, r2))`. -/
def vignetteFactor (r2 : ℚ) : ℚ := glslMix 0.85 1 (smoothstep 0.9 0.2 r2)

/-- `r2 = dot(centered, centered)` with `centered = uv - 0.5`
(source lines 56-57). -/
def r2Of (uv : ℚ × ℚ) : ℚ :=
  (uv.1 - 0.5) * (uv.1 - 0.5) + (uv.2 - 0.5) * (uv.2 - 0.5)

/-- The distorted sample coordinate (source lines 56-60):
`f = 1 + r2 * (uK + uKcube * sqrt(r2))`, `distorted = f * centered + 0.5`.
The GLSL `sqrt` is an explicit function parameter `sq`; every theorem
below holds for all `sq`, hence in particular for the true square
root. -/
def distortedCoord (sq : ℚ → ℚ) (k kcube : ℚ) (uv : ℚ × ℚ) : ℚ × ℚ :=
  let cx := uv.1 - 0.5
  let cy := uv.2 - 0.5
  let r2 := cx * cx + cy * cy
  let f := 1 + r2 * (k + kcube * sq r2)
  (f * cx + 0.5, f * cy + 0.5)

/-- The fragment shader's main (source lines 53-72): out-of-bounds
samples produce opaque black, in-bounds samples are read from the
texture at the distorted coordinate with the vignette multiplied into
rgb. -/
def fragment (sq : ℚ → ℚ) (k kcube : ℚ) (tex : ℚ × ℚ → Vec4)
    (uv : ℚ × ℚ) : Vec4 :=
  let d := distortedCoord sq k kcube uv
  if d.1 < 0 ∨ 1 < d.1 ∨ d.2 < 0 ∨ 1 < d.2 then ⟨0, 0, 0, 1⟩
  else
    let col := tex d
    ⟨col.r * vignetteFactor (r2Of uv), col.g * vignetteFactor (r2Of uv),
      col.b * vignetteFactor (r2Of uv), col.a⟩

/-! ## Frame Driver: resize (source lines 140-154)

The host-visible state touched by `resize`.  HTML canvas semantics:
assigning the `width` or `height` property of a canvas — even to its
current value — replaces the canvas bitmap with a fresh blank one; the
`…Gen` fields count these bitmap replacements, so a generation bump is a
surface reallocation that clears the contents.  `gpuAllocCount` counts
GPU object allocations (`resize` performs none: `gl.viewport` and
`gl.uniform2f` only update state). -/

structure SceneSurfaces where
  canvasW : ℤ
  canvasH : ℤ
  canvasGen : ℕ
  offW : ℤ
  offH : ℤ
  offGen : ℕ
  viewportW : ℤ
  viewportH : ℤ
  resUniform : ℤ × ℤ
  gpuAllocCount : ℕ
deriving DecidableEq

/-- `Math.min(window.devicePixelRatio || 1, 2)` (source line 141): a
falsy (zero) device-pixel ratio falls back to 1, and the ratio is
clamped to at most 2. -/
def dprOf (dprRaw : ℚ) : ℚ := min (if dprRaw = 0 then 1 else dprRaw) 2

/-- The resize handler (source lines 140-154): target sizes are
`floor(innerWidth * dpr)` and `floor(innerHeight * dpr)`; the visible
canvas is reassigned only when a dimension differs, the viewport and
resolution uniform always follow the canvas, and `off.width` /
`off.height` are reassigned unconditionally (two bitmap
replacements). -/
def resize (dprRaw innerW innerH : ℚ) (s : SceneSurfaces) : SceneSurfaces :=
  let w : ℤ := ⌊innerW * dprOf dprRaw⌋
  let h : ℤ := ⌊innerH * dprOf dprRaw⌋
  let s1 := if s.canvasW ≠ w ∨ s.canvasH ≠ h then
      { s with canvasW := w, canvasH := h, canvasGen := s.canvasGen + 1 }
    else s
  let s2 := { s1 with viewportW := s1.canvasW, viewportH := s1.canvasH,
                      resUniform := (s1.canvasW, s1.canvasH) }
  { s2 with offW := w, offH := h, offGen := s2.offGen + 2 }

/-! ## Resource Lifecycle: construction and teardown
(source lines 6-33, 88-134, 264-274) -/

/-- The resources and activity flags owned by the scene effect. -/
structure SceneRes where
  programAlloc : Bool
  bufferAlloc : Bool
  textureAlloc : Bool
  boundProgram : Bool
  rafPending : Bool
  resizeListener : Bool
deriving DecidableEq

/-- The fully initialized scene: program, quad buffer and texture
allocated, program in use, a frame scheduled and the resize listener
attached (source lines 97-266). -/
def initialRes : SceneRes := ⟨true, true, true, true, true, true⟩

/-- The effect's cleanup (source lines 268-274): cancel the scheduled
frame, remove the resize listener, delete the texture, delete the
buffer, and unbind the program with `gl.useProgram(null)`.
`gl.deleteProgram` is never called, so `programAlloc` is untouched. -/
def cleanup (s : SceneRes) : SceneRes :=
  { s with rafPending := false, resizeListener := false,
           textureAlloc := false, bufferAlloc := false,
           boundProgram := false }

/-- Host capabilities and compiler outcomes a construction run can
encounter.  The `…Info` fields are `some log` when the corresponding
compile or link step fails with that info log.  `offCtxAvailable`
records whether `off.getContext("2d")` would return a context; the
source never checks it (line 126 uses a non-null assertion). -/
structure InitCaps where
  glAvailable : Bool
  offCtxAvailable : Bool
  vsInfo : Option String
  fsInfo : Option String
  linkInfo : Option String

/-- How construction ends: a silent early return, a thrown error, or a
running scene. -/
inductive InitOutcome where
  | silentReturn : InitOutcome
  | thrown : String → InitOutcome
  | running : SceneRes → InitOutcome
deriving DecidableEq

/-- `createShader` (source lines 6-17): a compile failure deletes the
shader and throws `"Shader compile failed: " + info`. -/
def createShaderM (info : Option String) : Except String Unit :=
  match info with
  | some i => Except.error ("Shader compile failed: " ++ i)
  | none => Except.ok ()

/-- `createProgram` (source lines 19-33): compile the vertex shader,
then the fragment shader, then link; a link failure deletes the program
and throws `"Program link failed: " + info`. -/
def createProgramM (vsInfo fsInfo linkInfo : Option String) :
    Except String Unit :=
  match createShaderM vsInfo with
  | Except.error e => Except.error e
  | Except.ok _ =>
    match createShaderM fsInfo with
    | Except.error e => Except.error e
    | Except.ok _ =>
      match linkInfo with
      | some i => Except.error ("Program link failed: " ++ i)
      | none => Except.ok ()

/-- Scene construction (source lines 88-266): a missing WebGL context
makes the effect return silently (line 91: `if (!gl) return;`) with no
error; a shader compile or program link failure propagates as a thrown
error before any resource beyond the shaders is created or any frame is
scheduled; the 2D context is never checked; otherwise the scene starts
fully initialized. -/
def initScene (c : InitCaps) : InitOutcome :=
  if !c.glAvailable then InitOutcome.silentReturn
  else
    match createProgramM c.vsInfo c.fsInfo c.linkInfo with
    | Except.error msg => InitOutcome.thrown msg
    | Except.ok _ => InitOutcome.running initialRes

/-- Whether an outcome left an active scene (frames scheduled). -/
def sceneActive : InitOutcome → Bool
  | InitOutcome.running _ => true
  | _ => false

/-! ## Lemmas and claim theorems -/

lemma joinSp_cons (x : String) (l : List String) :
    joinSp (x :: l) = x ++ spTail l := by
  induction l generalizing x with
  | nil => simp [joinSp, spTail, String.append_empty]
  | cons y ys ih =>
    simp only [joinSp, spTail, ih y, String.append_assoc]

lemma spTail_append (a b : List String) :
    spTail (a ++ b) = spTail a ++ spTail b := by
  induction a with
  | nil =>
    have : ("" : String) ++ spTail b = spTail b := by
      apply String.ext
      simp [String.append]
    simp [spTail, this]
  | cons x xs ih => simp [spTail, ih, String.append_assoc]

lemma joinSp_append_singleton (l : List String) (x : String) (hl : l ≠ []) :
    joinSp (l ++ [x]) = joinSp l ++ " " ++ x := by
  obtain ⟨h, t, rfl⟩ := List.exists_cons_of_ne_nil hl
  simp [joinSp_cons, spTail_append, spTail, String.append_assoc,
    String.append_empty]

lemma mid_sp_ne (a b : String) : a ++ " " ++ b ≠ "" := by
  intro h
  have h2 := congrArg String.length h
  simp [String.length_append] at h2
  have h3 : (" " : String).length = 1 := rfl
  omega

lemma joinSp_ne_empty (l : List String) (hl : l ≠ [])
    (h : ∀ w ∈ l, w ≠ "") : joinSp l ≠ "" := by
  obtain ⟨x, t, rfl⟩ := List.exists_cons_of_ne_nil hl
  rw [joinSp_cons]
  intro e
  have h2 := congrArg String.length e
  simp [String.length_append] at h2
  apply h x (by simp)
  have h3 : x.data = [] := List.length_eq_zero.mp h2.1
  exact String.ext h3

/-! ### The wrap-loop invariants -/

/-- Every line flushed by the wrap loop, and the pending line when
nonempty, either measures within `maxWidth` or satisfies the word
predicate `P` (instantiated below with membership in the input words):
a flushed line is only ever extended while its measure stays within
bounds, or consists of the single word that started it. -/
lemma wrap_foldl_width (m : String → ℚ) (mw : ℚ) (P : String → Prop) :
    ∀ (ws lines : List String) (line : String),
      (∀ w ∈ ws, P w) →
      (∀ L ∈ lines, m L ≤ mw ∨ P L) →
      (line = "" ∨ m line ≤ mw ∨ P line) →
      (∀ L ∈ (ws.foldl (wrapStep m mw) (lines, line)).1, m L ≤ mw ∨ P L) ∧
      ((ws.foldl (wrapStep m mw) (lines, line)).2 = "" ∨
        m (ws.foldl (wrapStep m mw) (lines, line)).2 ≤ mw ∨
        P (ws.foldl (wrapStep m mw) (lines, line)).2) := by
  intro ws
  induction ws with
  | nil => intro lines line _ hl hc; exact ⟨hl, hc⟩
  | cons w ws ih =>
    intro lines line hw hl hc
    have hPw : P w := hw w (by simp)
    have hws : ∀ v ∈ ws, P v := fun v hv => hw v (by simp [hv])
    rw [List.foldl_cons]
    by_cases hline : line = ""
    · subst hline
      have hstep : wrapStep m mw (lines, "") w = (lines, w) := by
        simp [wrapStep]
      rw [hstep]
      exact ih lines w hws hl (Or.inr (Or.inr hPw))
    · by_cases hcond : mw < m (line ++ " " ++ w)
      · have hstep : wrapStep m mw (lines, line) w = (lines ++ [line], w) := by
          simp [wrapStep, hline, hcond]
        rw [hstep]
        refine ih (lines ++ [line]) w hws ?_ (Or.inr (Or.inr hPw))
        intro L hL
        rcases List.mem_append.mp hL with h1 | h1
        · exact hl L h1
        · rcases hc with h2 | h2
          · exact absurd h2 hline
          · simpa [List.mem_singleton.mp h1] using h2
      · have hstep : wrapStep m mw (lines, line) w =
            (lines, line ++ " " ++ w) := by
          simp [wrapStep, hline, hcond]
        rw [hstep]
        exact ih lines (line ++ " " ++ w) hws hl
          (Or.inr (Or.inl (le_of_not_lt hcond)))

lemma joinAcc_of_ne (ws : List String) :
    ∀ acc : String, acc ≠ "" → joinAcc acc ws = acc ++ spTail ws := by
  induction ws with
  | nil => intro acc _; simp [joinAcc, spTail, String.append_empty]
  | cons w ws ih =>
    intro acc hacc
    have h1 : joinAcc acc (w :: ws) = joinAcc (acc ++ " " ++ w) ws := by
      simp [joinAcc, hacc]
    rw [h1, ih (acc ++ " " ++ w) (mid_sp_ne acc w), spTail,
      String.append_assoc, String.append_assoc]
    simp [String.append_assoc]

lemma joinAcc_empty (ws : List String) (h : ∀ w ∈ ws, w ≠ "") :
    joinAcc "" ws = joinSp ws := by
  cases ws with
  | nil => rfl
  | cons w ws =>
    have hw : w ≠ "" := h w (by simp)
    have h1 : joinAcc "" (w :: ws) = joinAcc w ws := by simp [joinAcc]
    rw [h1, joinAcc_of_ne ws w hw, joinSp_cons]

/-- One wrap-loop step extends the joined text by a space and the new
word (or starts it with the word), and keeps all flushed lines
nonempty. -/
lemma joinSt_wrapStep (m : String → ℚ) (mw : ℚ) (lines : List String)
    (line w : String) (hl : ∀ L ∈ lines, L ≠ "") (hw : w ≠ "") :
    (∀ L ∈ (wrapStep m mw (lines, line) w).1, L ≠ "") ∧
    joinSt (wrapStep m mw (lines, line) w) =
      (if joinSt (lines, line) = "" then w
       else joinSt (lines, line) ++ " " ++ w) := by
  by_cases hline : line = ""
  · subst hline
    have hstep : wrapStep m mw (lines, "") w = (lines, w) := by
      simp [wrapStep]
    rw [hstep]
    refine ⟨hl, ?_⟩
    rcases List.eq_nil_or_concat lines with hnil | _
    · subst hnil
      simp [joinSt, hw, joinSp]
    · have hne : lines ≠ [] := by
        rintro rfl
        simp_all
      have hj : joinSp lines ≠ "" := joinSp_ne_empty lines hne hl
      simp [joinSt, hw, hj, joinSp_append_singleton lines w hne]
  · by_cases hcond : mw < m (line ++ " " ++ w)
    · have hstep : wrapStep m mw (lines, line) w = (lines ++ [line], w) := by
        simp [wrapStep, hline, hcond]
      rw [hstep]
      have hl2 : ∀ L ∈ lines ++ [line], L ≠ "" := by
        intro L hL
        rcases List.mem_append.mp hL with h1 | h1
        · exact hl L h1
        · rw [List.mem_singleton.mp h1]; exact hline
      refine ⟨hl2, ?_⟩
      have hne : lines ++ [line] ≠ [] := by simp
      have hj : joinSp (lines ++ [line]) ≠ "" :=
        joinSp_ne_empty (lines ++ [line]) hne hl2
      have hx : joinSp (lines ++ [line, w]) =
          joinSp (lines ++ [line]) ++ " " ++ w := by
        have h0 := joinSp_append_singleton (lines ++ [line]) w hne
        simpa using h0
      simp [joinSt, hline, hw, hj, hx]
    · have hstep : wrapStep m mw (lines, line) w =
          (lines, line ++ " " ++ w) := by
        simp [wrapStep, hline, hcond]
      rw [hstep]
      refine ⟨hl, ?_⟩
      have hnew : line ++ " " ++ w ≠ "" := mid_sp_ne line w
      by_cases hnil : lines = []
      · subst hnil; simp [joinSt, hline, hnew, joinSp]
      · have hl2 : ∀ L ∈ lines ++ [line], L ≠ "" := by
          intro L hL
          rcases List.mem_append.mp hL with h1 | h1
          · exact hl L h1
          · rw [List.mem_singleton.mp h1]; exact hline
        have hj : joinSp (lines ++ [line]) ≠ "" :=
          joinSp_ne_empty (lines ++ [line]) (by simp) hl2
        have hA : joinSt (lines, line ++ " " ++ w) =
            joinSp (lines ++ [line ++ " " ++ w]) := by
          simp [joinSt, hnew]
        have hB : joinSt (lines, line) = joinSp (lines ++ [line]) := by
          simp [joinSt, hline]
        rw [hA, hB, if_neg hj,
          joinSp_append_singleton lines (line ++ " " ++ w) hnil,
          joinSp_append_singleton lines line hnil]
        simp [String.append_assoc]

/-- Folding the wrap loop over nonempty words turns the join state into
the space-join accumulator of the consumed words. -/
lemma wrap_foldl_join (m : String → ℚ) (mw : ℚ) :
    ∀ (ws lines : List String) (line : String),
      (∀ L ∈ lines, L ≠ "") → (∀ w ∈ ws, w ≠ "") →
      (∀ L ∈ (ws.foldl (wrapStep m mw) (lines, line)).1, L ≠ "") ∧
      joinSt (ws.foldl (wrapStep m mw) (lines, line)) =
        joinAcc (joinSt (lines, line)) ws := by
  intro ws
  induction ws with
  | nil => intro lines line hl _; exact ⟨hl, rfl⟩
  | cons w ws ih =>
    intro lines line hl hw
    have hw0 : w ≠ "" := hw w (by simp)
    have hws : ∀ v ∈ ws, v ≠ "" := fun v hv => hw v (by simp [hv])
    rw [List.foldl_cons]
    obtain ⟨hl2, hstep⟩ := joinSt_wrapStep m mw lines line w hl hw0
    obtain ⟨hl3, hfold⟩ :=
      ih (wrapStep m mw (lines, line) w).1 (wrapStep m mw (lines, line) w).2
        hl2 hws
    refine ⟨by simpa using hl3, ?_⟩
    have hacc : joinAcc (joinSt (lines, line)) (w :: ws) =
        joinAcc (if joinSt (lines, line) = "" then w
                 else joinSt (lines, line) ++ " " ++ w) ws := by
      by_cases hj : joinSt (lines, line) = "" <;> simp [joinAcc, hj]
    rw [hacc, ← hstep]
    simpa using hfold

lemma string_mk_ne_empty (l : List Char) (hl : l ≠ []) :
    String.mk l ≠ "" := by
  intro e
  apply hl
  have := congrArg String.data e
  simpa using this

lemma wordsOfAux_ne_empty :
    ∀ (cs cur : List Char), ∀ w ∈ wordsOfAux cs cur, w ≠ "" := by
  intro cs
  induction cs with
  | nil =>
    intro cur w hw
    by_cases hcur : cur = []
    · simp [wordsOfAux, hcur] at hw
    · rw [wordsOfAux, if_neg hcur] at hw
      rw [List.mem_singleton.mp hw]
      exact string_mk_ne_empty cur.reverse (by simpa using hcur)
  | cons c rest ih =>
    intro cur w hw
    by_cases hws : c.isWhitespace
    · by_cases hcur : cur = []
      · rw [wordsOfAux, if_pos hws, if_pos hcur] at hw
        exact ih [] w hw
      · rw [wordsOfAux, if_pos hws, if_neg hcur] at hw
        rcases List.mem_cons.mp hw with h1 | h1
        · rw [h1]
          exact string_mk_ne_empty cur.reverse (by simpa using hcur)
        · exact ih [] w h1
    · rw [wordsOfAux, if_neg hws] at hw
      exact ih (c :: cur) w hw

lemma wordsOf_ne_empty (t : String) : ∀ w ∈ wordsOf t, w ≠ "" :=
  wordsOfAux_ne_empty t.data []

/-- C1: for every measurement function, every maxWidth and every input
text, each line of the greedy wrap either measures within maxWidth or is
one single whitespace-delimited word of the text (an overwide word is
never split), and space-joining the lines reproduces the space-join of
the text's whitespace-delimited word sequence. -/
theorem wrapText_width_le_or_single_word_and_join (measure : String → ℚ)
    (maxWidth : ℚ) (t : String) :
    (∀ L ∈ wrapText measure maxWidth (wordsOf t),
        measure L ≤ maxWidth ∨ L ∈ wordsOf t) ∧
    joinSp (wrapText measure maxWidth (wordsOf t)) = joinSp (wordsOf t) := by
  have hwne := wordsOf_ne_empty t
  obtain ⟨hw1, hw2⟩ := wrap_foldl_width measure maxWidth (· ∈ wordsOf t)
    (wordsOf t) [] "" (fun w hw => hw) (by simp) (Or.inl rfl)
  obtain ⟨hj1, hj2⟩ := wrap_foldl_join measure maxWidth (wordsOf t) [] ""
    (by simp) hwne
  have hstart : joinSt ([], "") = "" := rfl
  rw [hstart, joinAcc_empty (wordsOf t) hwne] at hj2
  constructor
  · intro L hL
    unfold wrapText at hL
    by_cases hfin :
        ((wordsOf t).foldl (wrapStep measure maxWidth) ([], "")).2 = ""
    · rw [if_pos hfin] at hL
      exact hw1 L hL
    · rw [if_neg hfin] at hL
      rcases List.mem_append.mp hL with h1 | h1
      · exact hw1 L h1
      · rw [List.mem_singleton.mp h1]
        rcases hw2 with h2 | h2
        · exact absurd h2 hfin
        · exact h2
  · unfold wrapText
    by_cases hfin :
        ((wordsOf t).foldl (wrapStep measure maxWidth) ([], "")).2 = ""
    · rw [if_pos hfin, ← hj2, joinSt, if_pos hfin]
    · rw [if_neg hfin, ← hj2, joinSt, if_neg hfin]

lemma jsMod_nonneg_eq (a b : ℚ) (ha : 0 ≤ a) (hb : 0 < b) :
    jsMod a b = a - b * ⌊a / b⌋ := by
  have : (0 : ℚ) ≤ a / b := div_nonneg ha hb.le
  simp [jsMod, jsTrunc, this]

lemma jsMod_add_self (a b : ℚ) (ha : 0 ≤ a) (hb : 0 < b) :
    jsMod (a + b) b = jsMod a b := by
  have ha2 : (0 : ℚ) ≤ a + b := by linarith
  rw [jsMod_nonneg_eq a b ha hb, jsMod_nonneg_eq (a + b) b ha2 hb]
  have hdiv : (a + b) / b = a / b + 1 := by
    field_simp
  rw [hdiv, Int.floor_add_one]
  push_cast
  ring

lemma blockHeight_pos (n : ℕ) (lineHeight h : ℚ) (hh : 0 < h)
    (hl : 0 ≤ lineHeight) : 0 < blockHeight n lineHeight h := by
  unfold blockHeight
  have h1 : (0 : ℚ) ≤ (n : ℚ) * lineHeight :=
    mul_nonneg (by positivity) hl
  nlinarith

/-- The compositor's drawn tuples depend on the scroll offset only
through `scroll % blockHeight`. -/
lemma drawnTuples_congr (lines : List String) (lineHeight h s s' : ℚ)
    (hmod : jsMod s (blockHeight lines.length lineHeight h) =
      jsMod s' (blockHeight lines.length lineHeight h)) :
    drawnTuples lines lineHeight h s = drawnTuples lines lineHeight h s' := by
  simp only [drawnTuples, baseY]
  rw [hmod]

/-- C3 (amended): for every configuration and every scroll offset
`s ≥ 0`, the drawn `(line, y, alpha)` tuples at offset `s + blockHeight`
are identical to those at offset `s` outright — `(s + b) % b = s % b` —
not shifted by `blockHeight`. -/
theorem drawnTuples_loop_identical (lines : List String)
    (lineHeight h s : ℚ) (hs : 0 ≤ s) (hh : 0 < h) (hl : 0 ≤ lineHeight) :
    drawnTuples lines lineHeight h (s + blockHeight lines.length lineHeight h) =
      drawnTuples lines lineHeight h s := by
  apply drawnTuples_congr
  exact jsMod_add_self s (blockHeight lines.length lineHeight h) hs
    (blockHeight_pos lines.length lineHeight h hh hl)

theorem drawnTuples_loop_identical_witness :
    drawnTuples ["A"] 20 100 (7 + blockHeight 1 20 100) =
      drawnTuples ["A"] 20 100 7 :=
  drawnTuples_loop_identical ["A"] 20 100 7 (by norm_num) (by norm_num)
    (by norm_num)

/-- C3 counterexample: the claim as stated — the tuple set at
`s + blockHeight` equals the tuple set at `s` shifted vertically by
exactly `blockHeight` (in either direction) — fails at a concrete
configuration: one line "A", lineHeight 20, h 100, s 0, where both
offsets draw the very same tuples, which no nonzero shift preserves. -/
theorem drawnTuples_shift_counterexample :
    (("A", (50 : ℚ), (1 : ℚ)) ∈
        drawnTuples ["A"] 20 100 (0 + blockHeight 1 20 100)) ∧
    (("A", (50 : ℚ), (1 : ℚ)) ∉
        shiftY (-(blockHeight 1 20 100)) (drawnTuples ["A"] 20 100 0)) ∧
    (("A", (50 : ℚ), (1 : ℚ)) ∉
        shiftY (blockHeight 1 20 100) (drawnTuples ["A"] 20 100 0)) ∧
    drawnTuples ["A"] 20 100 (0 + blockHeight 1 20 100) ≠
      shiftY (-(blockHeight 1 20 100)) (drawnTuples ["A"] 20 100 0) ∧
    drawnTuples ["A"] 20 100 (0 + blockHeight 1 20 100) ≠
      shiftY (blockHeight 1 20 100) (drawnTuples ["A"] 20 100 0) := by
  have hD0 : drawnTuples ["A"] 20 100 0 =
      [("A", (50 : ℚ), (1 : ℚ)), ("A", (90 : ℚ), (1/4 : ℚ))] := by
    norm_num [drawnTuples, edgeAlpha, blockHeight, baseY, jsMod, jsTrunc,
      min_def, max_def, List.range_succ, List.flatMap_cons, List.flatMap_nil,
      List.filterMap_cons, List.filterMap_nil]
  have hD40 : drawnTuples ["A"] 20 100 (0 + blockHeight 1 20 100) =
      [("A", (50 : ℚ), (1 : ℚ)), ("A", (90 : ℚ), (1/4 : ℚ))] := by
    norm_num [drawnTuples, edgeAlpha, blockHeight, baseY, jsMod, jsTrunc,
      min_def, max_def, List.range_succ, List.flatMap_cons, List.flatMap_nil,
      List.filterMap_cons, List.filterMap_nil]
  have hbh : blockHeight 1 20 100 = 40 := by norm_num [blockHeight]
  rw [hD0, hD40, hbh]
  norm_num [shiftY]

/-- C5: the effective scroll-advance dt of a tick equals
`min(raw interval in seconds, 0.05)`; a raw interval above 0.05 s is
clamped to exactly 0.05 s; the offset advances by exactly
`speed * dt`, and the clock start becomes the tick's timestamp. -/
theorem renderTick_dt_clamp (speed start scroll now : ℚ) :
    (renderTick speed (start, scroll) now).2 =
      scroll + speed * min ((now - start) / 1000) 0.05 ∧
    (0.05 < (now - start) / 1000 →
      (renderTick speed (start, scroll) now).2 = scroll + speed * 0.05) ∧
    (renderTick speed (start, scroll) now).1 = now := by
  refine ⟨by simp [renderTick, min_comm], ?_, rfl⟩
  intro hraw
  simp [renderTick, min_eq_left hraw.le]

/-- Concrete instances: a 16 ms tick at speed 54 advances the offset by
exactly 0.864 pixels, and a 100 ms tick is clamped to a 0.05 s
advance. -/
theorem renderTick_dt_clamp_witness :
    (renderTick 54 (0, 0) 16).2 = 0.864 ∧
    (renderTick 1 (0, 0) 100).2 = 0 + 1 * 0.05 := by
  constructor
  · have h1 := (renderTick_dt_clamp 54 0 0 16).1
    rw [h1]
    rw [min_eq_left (by norm_num : ((16 : ℚ) - 0) / 1000 ≤ 0.05)]
    norm_num
  · exact (renderTick_dt_clamp 1 0 0 100).2.1 (by norm_num)

/-- The scroll never decreases along a tick sequence whose timestamps
never decrease, for a nonnegative speed. -/
lemma scrollTrace_chain (speed : ℚ) (hspeed : 0 ≤ speed) :
    ∀ (ticks : List ℚ) (start scroll : ℚ),
      List.Chain (· ≤ ·) start ticks →
      List.Chain (· ≤ ·) scroll (scrollTrace speed (start, scroll) ticks) := by
  intro ticks
  induction ticks with
  | nil => intro start scroll _; exact List.Chain.nil
  | cons now rest ih =>
    intro start scroll hchain
    rw [List.chain_cons] at hchain
    obtain ⟨hle, hrest⟩ := hchain
    have hdt : (0 : ℚ) ≤ min 0.05 ((now - start) / 1000) :=
      le_min (by norm_num) (div_nonneg (by linarith) (by norm_num))
    have hadv : scroll ≤ (renderTick speed (start, scroll) now).2 := by
      simp only [renderTick]
      nlinarith
    rw [scrollTrace, List.chain_cons]
    refine ⟨hadv, ?_⟩
    have h2 := ih now (renderTick speed (start, scroll) now).2 hrest
    simpa [renderTick] using h2

/-- C9: over every frame-tick sequence with non-decreasing timestamps
and nonnegative speed, the scroll offset is monotonically non-decreasing,
and the compositor consumes the offset only through
`offset mod blockHeight`: offsets with equal remainder draw identical
tuples. -/
theorem scroll_monotone_and_mod_only (speed start0 scroll0 : ℚ)
    (ticks : List ℚ) (hspeed : 0 ≤ speed)
    (hticks : List.Chain (· ≤ ·) start0 ticks) :
    List.Chain (· ≤ ·) scroll0 (scrollTrace speed (start0, scroll0) ticks) ∧
    ∀ (lines : List String) (lineHeight h s s' : ℚ),
      jsMod s (blockHeight lines.length lineHeight h) =
        jsMod s' (blockHeight lines.length lineHeight h) →
      drawnTuples lines lineHeight h s = drawnTuples lines lineHeight h s' :=
  ⟨scrollTrace_chain speed hspeed ticks start0 scroll0 hticks,
   fun lines lineHeight h s s' hmod =>
     drawnTuples_congr lines lineHeight h s s' hmod⟩

theorem scroll_monotone_and_mod_only_witness :
    List.Chain (· ≤ ·) 0 (scrollTrace 54 (0, 0) [16, 100]) ∧
    drawnTuples ["B"] 20 200 60 = drawnTuples ["B"] 20 200 0 := by
  have h := scroll_monotone_and_mod_only 54 0 0 [16, 100] (by norm_num)
    (by norm_num [List.chain_cons])
  refine ⟨h.1, h.2 ["B"] 20 200 60 0 ?_⟩
  norm_num [jsMod, jsTrunc, blockHeight]

/-- C10: for every text (the empty string wraps to zero lines), every
nonnegative line height and every positive viewport height, the loop
period `blockHeight = lines.length * lineHeight + 0.2 * h` is strictly
positive, so the modulo in `baseY` is never taken with divisor zero. -/
theorem blockHeight_pos_of_layout (measure : String → ℚ)
    (maxWidth lineHeight h : ℚ) (t : String) (hh : 0 < h)
    (hl : 0 ≤ lineHeight) :
    wrapText measure maxWidth (wordsOf "") = [] ∧
    0 < blockHeight (wrapText measure maxWidth (wordsOf t)).length
        lineHeight h := by
  constructor
  · have hempty : wordsOf "" = [] := rfl
    rw [hempty]
    simp [wrapText]
  · exact blockHeight_pos _ lineHeight h hh hl

/-- C2: for every sqrt function, every (k, kcube), every texture and
every pixel, if a component of the distorted coordinate leaves [0,1] the
fragment is exactly opaque black, independent of the texture content;
otherwise the fragment is the texture sample at the distorted coordinate
with the vignette factor applied to its rgb. -/
theorem fragment_cutoff (sq : ℚ → ℚ) (k kcube : ℚ)
    (tex tex' : ℚ × ℚ → Vec4) (uv : ℚ × ℚ) :
    ((distortedCoord sq k kcube uv).1 < 0 ∨
        1 < (distortedCoord sq k kcube uv).1 ∨
        (distortedCoord sq k kcube uv).2 < 0 ∨
        1 < (distortedCoord sq k kcube uv).2 →
      fragment sq k kcube tex uv = ⟨0, 0, 0, 1⟩ ∧
      fragment sq k kcube tex uv = fragment sq k kcube tex' uv) ∧
    (¬((distortedCoord sq k kcube uv).1 < 0 ∨
        1 < (distortedCoord sq k kcube uv).1 ∨
        (distortedCoord sq k kcube uv).2 < 0 ∨
        1 < (distortedCoord sq k kcube uv).2) →
      fragment sq k kcube tex uv =
        ⟨(tex (distortedCoord sq k kcube uv)).r * vignetteFactor (r2Of uv),
          (tex (distortedCoord sq k kcube uv)).g * vignetteFactor (r2Of uv),
          (tex (distortedCoord sq k kcube uv)).b * vignetteFactor (r2Of uv),
          (tex (distortedCoord sq k kcube uv)).a⟩) := by
  constructor
  · intro h
    constructor <;> simp [fragment, if_pos h]
  · intro h
    simp [fragment, if_neg h]

theorem fragment_cutoff_witness :
    ((distortedCoord (fun _ => 0) 10 0 (0, 0)).1 < 0 ∨
      1 < (distortedCoord (fun _ => 0) 10 0 (0, 0)).1 ∨
      (distortedCoord (fun _ => 0) 10 0 (0, 0)).2 < 0 ∨
      1 < (distortedCoord (fun _ => 0) 10 0 (0, 0)).2) ∧
    fragment (fun _ => 0) 10 0 (fun _ => ⟨1, 1, 1, 1⟩) (0, 0) =
      ⟨0, 0, 0, 1⟩ := by
  have hoob : (distortedCoord (fun _ => 0) 10 0 (0, 0)).1 < 0 ∨
      1 < (distortedCoord (fun _ => 0) 10 0 (0, 0)).1 ∨
      (distortedCoord (fun _ => 0) 10 0 (0, 0)).2 < 0 ∨
      1 < (distortedCoord (fun _ => 0) 10 0 (0, 0)).2 := by
    norm_num [distortedCoord]
  exact ⟨hoob,
    ((fragment_cutoff (fun _ => 0) 10 0 (fun _ => ⟨1, 1, 1, 1⟩)
      (fun _ => ⟨0, 0, 0, 0⟩) (0, 0)).1 hoob).1⟩

/-- The polynomial `t * t * (3 - 2 * t)` of smoothstep is monotone on
[0, 1]. -/
lemma smoothPoly_mono (t1 t2 : ℚ) (h0 : 0 ≤ t1) (h12 : t1 ≤ t2)
    (h21 : t2 ≤ 1) : t1 * t1 * (3 - 2 * t1) ≤ t2 * t2 * (3 - 2 * t2) := by
  nlinarith [mul_nonneg h0 (sub_nonneg.mpr h12),
    mul_nonneg (sub_nonneg.mpr h12) (sub_nonneg.mpr h21),
    mul_nonneg h0 (sub_nonneg.mpr h21), sq_nonneg (t2 - t1),
    sq_nonneg (t2 + t1 - 1)]

/-- C4: the vignette multiplier is exactly 1 for `r2 ≤ 0.2`, exactly
0.85 for `r2 ≥ 0.9`, and non-increasing on [0.2, 0.9]. -/
theorem vignetteFactor_piecewise (r2 : ℚ) :
    (r2 ≤ 0.2 → vignetteFactor r2 = 1) ∧
    (0.9 ≤ r2 → vignetteFactor r2 = 0.85) ∧
    (∀ b : ℚ, 0.2 ≤ r2 → r2 ≤ b → b ≤ 0.9 →
      vignetteFactor b ≤ vignetteFactor r2) := by
  have hq : ∀ x : ℚ, (x - 0.9) / (0.2 - 0.9) = (0.9 - x) * (10 / 7) := by
    intro x
    ring
  refine ⟨?_, ?_, ?_⟩
  · intro h
    simp only [vignetteFactor, smoothstep, glslClamp, glslMix, hq]
    have h1 : (1 : ℚ) ≤ (0.9 - r2) * (10 / 7) := by nlinarith
    rw [max_eq_left (by linarith), min_eq_right h1]
    norm_num
  · intro h
    simp only [vignetteFactor, smoothstep, glslClamp, glslMix, hq]
    have h1 : (0.9 - r2) * (10 / 7) ≤ 0 := by nlinarith
    rw [max_eq_right h1, min_eq_left (by norm_num)]
    norm_num
  · intro b ha hab hb
    simp only [vignetteFactor, smoothstep, glslClamp, glslMix, hq]
    have hta1 : (0.9 - r2) * (10 / 7) ≤ 1 := by nlinarith
    have hta0 : (0 : ℚ) ≤ (0.9 - r2) * (10 / 7) := by nlinarith
    have htb1 : (0.9 - b) * (10 / 7) ≤ 1 := by nlinarith
    have htb0 : (0 : ℚ) ≤ (0.9 - b) * (10 / 7) := by nlinarith
    have hba : (0.9 - b) * (10 / 7) ≤ (0.9 - r2) * (10 / 7) := by nlinarith
    rw [max_eq_left hta0, min_eq_left hta1, max_eq_left htb0,
      min_eq_left htb1]
    have hmono := smoothPoly_mono ((0.9 - b) * (10 / 7))
      ((0.9 - r2) * (10 / 7)) htb0 hba hta1
    nlinarith [hmono]

theorem vignetteFactor_piecewise_witness :
    vignetteFactor 0.1 = 1 ∧ vignetteFactor 0.95 = 0.85 ∧
    vignetteFactor 0.8 ≤ vignetteFactor 0.3 :=
  ⟨(vignetteFactor_piecewise 0.1).1 (by norm_num),
   (vignetteFactor_piecewise 0.95).2.1 (by norm_num),
   (vignetteFactor_piecewise 0.3).2.2 0.8 (by norm_num) (by norm_num)
     (by norm_num)⟩

/-- Closed form of one `resize` call: the canvas bitmap generation
advances only when a dimension changed, while the offscreen bitmap
generation advances by two on every call. -/
lemma resize_spec (dprRaw innerW innerH : ℚ) (s : SceneSurfaces) :
    resize dprRaw innerW innerH s =
      { canvasW := ⌊innerW * dprOf dprRaw⌋,
        canvasH := ⌊innerH * dprOf dprRaw⌋,
        canvasGen := if s.canvasW = ⌊innerW * dprOf dprRaw⌋ ∧
            s.canvasH = ⌊innerH * dprOf dprRaw⌋ then s.canvasGen
          else s.canvasGen + 1,
        offW := ⌊innerW * dprOf dprRaw⌋,
        offH := ⌊innerH * dprOf dprRaw⌋,
        offGen := s.offGen + 2,
        viewportW := ⌊innerW * dprOf dprRaw⌋,
        viewportH := ⌊innerH * dprOf dprRaw⌋,
        resUniform := (⌊innerW * dprOf dprRaw⌋, ⌊innerH * dprOf dprRaw⌋),
        gpuAllocCount := s.gpuAllocCount } := by
  simp only [resize]
  by_cases hc : s.canvasW ≠ ⌊innerW * dprOf dprRaw⌋ ∨
      s.canvasH ≠ ⌊innerH * dprOf dprRaw⌋
  · rw [if_pos hc, if_neg (by tauto)]
  · rw [if_neg hc]
    push_neg at hc
    rw [if_pos hc]
    simp [SceneSurfaces.mk.injEq, hc.1, hc.2]

/-- C6 counterexample: a repeated `resize` with identical host
dimensions does not leave the state unchanged — the unconditional
`off.width` / `off.height` assignments replace the offscreen bitmap
(`offGen` grows), so the SurfaceBuffer contents are cleared and a fresh
surface is allocated on every call. -/
theorem resize_not_idempotent_counterexample :
    resize 1 800 600 (resize 1 800 600
        ⟨800, 600, 0, 800, 600, 0, 800, 600, (800, 600), 3⟩) ≠
      resize 1 800 600
        ⟨800, 600, 0, 800, 600, 0, 800, 600, (800, 600), 3⟩ := by
  intro h
  have h2 := congrArg SceneSurfaces.offGen h
  simp only [resize_spec] at h2
  simp at h2

/-- C6 (amended): a second `resize` with the same host dimensions and
device-pixel ratio leaves the visible canvas dimensions, its bitmap
generation, the viewport, the resolution uniform, the offscreen
dimensions and the GPU allocation count unchanged, but still replaces
the offscreen bitmap: `offGen` advances by exactly the two unconditional
assignments. -/
theorem resize_repeat (dprRaw innerW innerH : ℚ) (s : SceneSurfaces) :
    (resize dprRaw innerW innerH (resize dprRaw innerW innerH s)).canvasW =
      (resize dprRaw innerW innerH s).canvasW ∧
    (resize dprRaw innerW innerH (resize dprRaw innerW innerH s)).canvasH =
      (resize dprRaw innerW innerH s).canvasH ∧
    (resize dprRaw innerW innerH (resize dprRaw innerW innerH s)).canvasGen =
      (resize dprRaw innerW innerH s).canvasGen ∧
    (resize dprRaw innerW innerH (resize dprRaw innerW innerH s)).offW =
      (resize dprRaw innerW innerH s).offW ∧
    (resize dprRaw innerW innerH (resize dprRaw innerW innerH s)).offH =
      (resize dprRaw innerW innerH s).offH ∧
    (resize dprRaw innerW innerH (resize dprRaw innerW innerH s)).viewportW =
      (resize dprRaw innerW innerH s).viewportW ∧
    (resize dprRaw innerW innerH (resize dprRaw innerW innerH s)).viewportH =
      (resize dprRaw innerW innerH s).viewportH ∧
    (resize dprRaw innerW innerH (resize dprRaw innerW innerH s)).resUniform =
      (resize dprRaw innerW innerH s).resUniform ∧
    (resize dprRaw innerW innerH
        (resize dprRaw innerW innerH s)).gpuAllocCount =
      (resize dprRaw innerW innerH s).gpuAllocCount ∧
    (resize dprRaw innerW innerH (resize dprRaw innerW innerH s)).offGen =
      (resize dprRaw innerW innerH s).offGen + 2 := by
  rw [resize_spec dprRaw innerW innerH (resize dprRaw innerW innerH s),
    resize_spec dprRaw innerW innerH s]
  simp

/-- C7 (code evidence): teardown from the fully initialized scene stops
frame scheduling, detaches the resize listener and releases the texture
and the buffer, but leaves the compiled program allocated — it is only
unbound, never deleted — so not all three GPU resources are released. -/
theorem cleanup_leaks_program :
    (cleanup initialRes).rafPending = false ∧
    (cleanup initialRes).resizeListener = false ∧
    (cleanup initialRes).textureAlloc = false ∧
    (cleanup initialRes).bufferAlloc = false ∧
    (cleanup initialRes).boundProgram = false ∧
    (cleanup initialRes).programAlloc = true :=
  ⟨rfl, rfl, rfl, rfl, rfl, rfl⟩

/-- C8 counterexample: with the rendering context unavailable,
construction neither throws nor surfaces any error — the effect returns
silently — refuting that every construction failure surfaces
synchronously as an error to the caller. -/
theorem initScene_missing_context_suppressed :
    initScene ⟨false, true, none, none, none⟩ = InitOutcome.silentReturn ∧
    ¬∃ msg : String, initScene ⟨false, true, none, none, none⟩ =
        InitOutcome.thrown msg := by
  constructor
  · rfl
  · rintro ⟨msg, h⟩
    simp [initScene] at h

/-- C8 (amended): shader compile and link failures do surface
synchronously carrying the compiler diagnostic, and a scene is active
exactly when the context was available and compilation and linking all
succeeded (so no failure leaves a partial scene active); but a missing
rendering context is silently suppressed, and the 2D drawing surface is
never checked during construction. -/
theorem initScene_failure_surface (c : InitCaps) :
    (c.glAvailable = false → initScene c = InitOutcome.silentReturn) ∧
    (∀ i, c.glAvailable = true → c.vsInfo = some i →
      initScene c = InitOutcome.thrown ("Shader compile failed: " ++ i)) ∧
    (∀ i, c.glAvailable = true → c.vsInfo = none → c.fsInfo = some i →
      initScene c = InitOutcome.thrown ("Shader compile failed: " ++ i)) ∧
    (∀ i, c.glAvailable = true → c.vsInfo = none → c.fsInfo = none →
      c.linkInfo = some i →
      initScene c = InitOutcome.thrown ("Program link failed: " ++ i)) ∧
    (sceneActive (initScene c) = true ↔
      c.glAvailable = true ∧ c.vsInfo = none ∧ c.fsInfo = none ∧
        c.linkInfo = none) := by
  obtain ⟨gl, off, vs, fs, li⟩ := c
  cases gl <;> cases vs <;> cases fs <;> cases li <;>
    simp [initScene, createProgramM, createShaderM, sceneActive]

theorem initScene_failure_surface_witness :
    initScene ⟨true, true, some "bad", none, none⟩ =
      InitOutcome.thrown ("Shader compile failed: " ++ "bad") ∧
    sceneActive (initScene ⟨true, true, none, none, none⟩) = true :=
  ⟨(initScene_failure_surface ⟨true, true, some "bad", none, none⟩).2.1
      "bad" rfl rfl,
   (initScene_failure_surface ⟨true, true, none, none, none⟩).2.2.2.2.mpr
      ⟨rfl, rfl, rfl, rfl⟩⟩

theorem blockHeight_pos_of_layout_witness :
    wrapText (fun s => (s.length : ℚ)) 10 (wordsOf "") = [] ∧
    0 < blockHeight
        (wrapText (fun s => (s.length : ℚ)) 10 (wordsOf "hello world")).length
        20 100 :=
  blockHeight_pos_of_layout (fun s => (s.length : ℚ)) 10 20 100
    "hello world" (by norm_num) (by norm_num)

end Fisheye
